import Mathlib

/-!
Verification of the Short-Video-Analysis orchestration core.

This development shallowly embeds the Python sources:
  - `notebooks/tools.py` (`clean_think_blocks`, `extract_assistant_response`),
  - `agents/memory.py` (`MemoryManager`),
  - `agents/langgraph_agents.py` (`orchestrator_route`, the task handlers,
    `update_memory`, and the compiled graph control flow).

External collaborators (the speech-to-text, vision-language and
text-generation engines, the renderer, and `json.loads` from the Python
standard library) are modelled as explicit parameters, following the
system design which treats them as opaque functions with input/output
contracts.  Machine-level behaviour of the Python runtime (dict ordering,
`KeyError`/`TypeError` raised by subscripting, bare `except` clauses,
negative-index slicing) is reproduced faithfully.
-/

namespace ShortVideo

/-! ### Python string primitives -/

/-- Whitespace predicate used by Python `str.strip`, `\s` in the regexes. -/
def pyWS (c : Char) : Bool := c.isWhitespace

/-- Remove leading whitespace (Python `lstrip`). -/
def ltrimWS (l : List Char) : List Char := l.dropWhile pyWS

/-- Remove trailing whitespace (Python `rstrip`). -/
def rtrimWS (l : List Char) : List Char := (l.reverse.dropWhile pyWS).reverse

/-- Python `str.strip()`: remove leading and trailing whitespace. -/
def pyStrip (l : List Char) : List Char := rtrimWS (ltrimWS l)

/-- Leftmost occurrence of `pat` in a character list: returns the text
before the occurrence and the text after it.  This is the primitive with
which we model `re.sub`/`re.search` on the literal patterns the code
uses. -/
def splitFirst (pat : List Char) : List Char → Option (List Char × List Char)
  | [] => if pat.isEmpty then some ([], []) else none
  | c :: cs =>
    if pat.isPrefixOf (c :: cs) then some ([], (c :: cs).drop pat.length)
    else
      match splitFirst pat cs with
      | some (pre, post) => some (c :: pre, post)
      | none => none

theorem splitFirst_post_length (pat : List Char) (hpat : pat ≠ []) :
    ∀ {s pre post : List Char}, splitFirst pat s = some (pre, post) →
      post.length < s.length := by
  intro s
  induction s with
  | nil =>
    intro pre post h
    simp [splitFirst, List.isEmpty_iff, hpat] at h
  | cons c cs ih =>
    intro pre post h
    simp only [splitFirst] at h
    by_cases hp : pat.isPrefixOf (c :: cs)
    · rw [if_pos hp] at h
      obtain ⟨h1, h2⟩ := Prod.mk.injEq .. ▸ Option.some.injEq .. ▸ h
      have hlen : 0 < pat.length := List.length_pos.mpr hpat
      subst h2
      simp only [List.length_drop, List.length_cons]
      omega
    · rw [if_neg hp] at h
      cases hrec : splitFirst pat cs with
      | none => rw [hrec] at h; exact absurd h (by simp)
      | some pr =>
        obtain ⟨pre', post'⟩ := pr
        rw [hrec] at h
        obtain ⟨h1, h2⟩ := Prod.mk.injEq .. ▸ Option.some.injEq .. ▸ h
        have := ih hrec
        subst h2
        simp only [List.length_cons]
        omega

theorem splitFirst_decomp {pat : List Char} :
    ∀ {s pre post : List Char}, splitFirst pat s = some (pre, post) →
      s = pre ++ pat ++ post := by
  intro s
  induction s with
  | nil =>
    intro pre post h
    by_cases hpat : pat = []
    · subst hpat
      simp [splitFirst] at h
      obtain ⟨h1, h2⟩ := h
      subst h1; subst h2; rfl
    · simp [splitFirst, List.isEmpty_iff, hpat] at h
  | cons c cs ih =>
    intro pre post h
    simp only [splitFirst] at h
    by_cases hp : pat.isPrefixOf (c :: cs)
    · rw [if_pos hp] at h
      obtain ⟨h1, h2⟩ := Prod.mk.injEq .. ▸ Option.some.injEq .. ▸ h
      obtain ⟨t, ht⟩ := List.isPrefixOf_iff_prefix.mp hp
      subst h1
      rw [← h2, ← ht, List.nil_append, List.drop_left]
    · rw [if_neg hp] at h
      cases hrec : splitFirst pat cs with
      | none => rw [hrec] at h; exact absurd h (by simp)
      | some pr =>
        obtain ⟨pre', post'⟩ := pr
        rw [hrec] at h
        obtain ⟨h1, h2⟩ := Prod.mk.injEq .. ▸ Option.some.injEq .. ▸ h
        subst h2
        rw [← h1, List.cons_append, List.cons_append, ih hrec]

theorem splitFirst_self {pat : List Char} (hpat : pat ≠ []) (s : List Char) :
    splitFirst pat (pat ++ s) = some ([], s) := by
  cases pat with
  | nil => exact absurd rfl hpat
  | cons p pt =>
    have hp : (p :: pt).isPrefixOf ((p :: pt) ++ s) :=
      List.isPrefixOf_iff_prefix.mpr ⟨s, rfl⟩
    rw [List.cons_append, splitFirst, if_pos (by rw [← List.cons_append]; exact hp)]
    rw [← List.cons_append, List.drop_left]

theorem splitFirst_append (pat : List Char) (p : Char)
    (hpat : pat.head? = some p) :
    ∀ (a s : List Char), p ∉ a →
      splitFirst pat (a ++ s) =
        Option.map (fun pr => (a ++ pr.1, pr.2)) (splitFirst pat s) := by
  intro a
  induction a with
  | nil =>
    intro s _
    cases h : splitFirst pat s with
    | none => simp [h]
    | some pr => cases pr; simp [h]
  | cons c a' ih =>
    intro s ha
    have hcp : c ≠ p := fun h => ha (h ▸ List.mem_cons_self c a')
    have hnp : pat.isPrefixOf (c :: (a' ++ s)) = false := by
      cases pat with
      | nil => simp at hpat
      | cons q qt =>
        have : q = p := by simpa using hpat
        subst this
        simp only [List.isPrefixOf, Bool.and_eq_false_iff]
        left
        exact beq_eq_false_iff_ne.mpr fun h => hcp h.symm
    have ha' : p ∉ a' := fun h => ha (List.mem_cons_of_mem c h)
    rw [List.cons_append, splitFirst, if_neg (by rw [hnp]; exact Bool.false_ne_true)]
    rw [ih s ha']
    cases h : splitFirst pat s with
    | none => simp
    | some pr => cases pr; simp

theorem splitFirst_eq_none_of_absent {pat : List Char} (hpat : pat ≠ []) :
    ∀ {s : List Char}, ¬ pat <:+: s → splitFirst pat s = none := by
  intro s
  induction s with
  | nil =>
    intro _
    simp [splitFirst, List.isEmpty_iff, hpat]
  | cons c cs ih =>
    intro h
    have hp : pat.isPrefixOf (c :: cs) = false := by
      by_contra hb
      have : pat.isPrefixOf (c :: cs) = true := by
        cases hx : pat.isPrefixOf (c :: cs)
        · exact absurd hx hb
        · rfl
      exact h (List.isPrefixOf_iff_prefix.mp this).isInfix
    have hcs : ¬ pat <:+: cs := fun hin => h (hin.trans (List.suffix_cons c cs).isInfix)
    rw [splitFirst, if_neg (by rw [hp]; exact Bool.false_ne_true), ih hcs]

/-! ### Trim lemmas -/

theorem ltrimWS_idem (l : List Char) : ltrimWS (ltrimWS l) = ltrimWS l :=
  List.dropWhile_idempotent pyWS l

theorem rtrimWS_idem (l : List Char) : rtrimWS (rtrimWS l) = rtrimWS l := by
  unfold rtrimWS
  rw [List.reverse_reverse, List.dropWhile_idempotent]

theorem rtrimWS_cons (c : Char) (t : List Char) :
    rtrimWS (c :: t) =
      if (t.reverse.dropWhile pyWS).isEmpty then (if pyWS c then [] else [c])
      else c :: rtrimWS t := by
  unfold rtrimWS
  rw [List.reverse_cons, List.dropWhile_append]
  by_cases h : (t.reverse.dropWhile pyWS).isEmpty
  · rw [if_pos h, if_pos h]
    by_cases hc : pyWS c
    · simp [List.dropWhile, hc]
    · simp [List.dropWhile, hc]
  · rw [if_neg h, if_neg h, List.reverse_append]
    simp

theorem ltrimWS_cons_of_ws {c : Char} (hc : pyWS c) (t : List Char) :
    ltrimWS (c :: t) = ltrimWS t := by
  simp [ltrimWS, List.dropWhile_cons, hc]

theorem ltrimWS_cons_of_not_ws {c : Char} (hc : ¬ pyWS c) (t : List Char) :
    ltrimWS (c :: t) = c :: t := by
  simp [ltrimWS, List.dropWhile_cons, hc]

theorem ltrim_rtrim_comm (l : List Char) : ltrimWS (rtrimWS l) = rtrimWS (ltrimWS l) := by
  induction l with
  | nil => rfl
  | cons c t ih =>
    by_cases hc : pyWS c
    · rw [rtrimWS_cons, ltrimWS_cons_of_ws hc]
      by_cases h : (t.reverse.dropWhile pyWS).isEmpty
      · rw [if_pos h, if_pos hc]
        have hrt : rtrimWS t = [] := by
          unfold rtrimWS
          rw [List.isEmpty_iff.mp h]
          rfl
        rw [← ih, hrt]
      · rw [if_neg h, ltrimWS_cons_of_ws hc]
        exact ih
    · rw [ltrimWS_cons_of_not_ws hc, rtrimWS_cons]
      by_cases h : (t.reverse.dropWhile pyWS).isEmpty
      · rw [if_pos h, if_neg hc]
        exact ltrimWS_cons_of_not_ws hc []
      · rw [if_neg h]
        exact ltrimWS_cons_of_not_ws hc (rtrimWS t)

theorem pyStrip_ltrim (l : List Char) : pyStrip (ltrimWS l) = pyStrip l := by
  unfold pyStrip
  rw [ltrimWS_idem]

theorem pyStrip_rtrim (l : List Char) : pyStrip (rtrimWS l) = pyStrip l := by
  unfold pyStrip
  rw [← ltrim_rtrim_comm, ← ltrim_rtrim_comm l, rtrimWS_idem]

theorem pyStrip_ltrim_rtrim (l : List Char) :
    pyStrip (ltrimWS (rtrimWS l)) = pyStrip l := by
  rw [pyStrip_ltrim, pyStrip_rtrim]

/-! ### `clean_think_blocks` (notebooks/tools.py, lines 128-133)

Python: `re.sub(r"<think>.*?</think>", "", text, flags=re.DOTALL).strip()`.
The regex engine's leftmost, non-greedy matching is modelled by repeatedly
locating the first `<think>` and the first `</think>` after it; a leftmost
opening tag with no closing tag after it means there is no match anywhere,
so the text is returned unchanged.  `stripThinkFuel` is the fuel-indexed
worker; each step strictly shrinks the remaining text, so fuel equal to
the input length always suffices. -/

def openTag : List Char := "<think>".data

def closeTag : List Char := "</think>".data

def stripThinkFuel : Nat → List Char → List Char
  | 0, s => s
  | fuel + 1, s =>
    match splitFirst openTag s with
    | none => s
    | some (pre, post) =>
      match splitFirst closeTag post with
      | none => s
      | some (_, rest) => pre ++ stripThinkFuel fuel rest

def stripThinkCore (s : List Char) : List Char := stripThinkFuel s.length s

def clean_think_blocks (s : String) : String :=
  String.mk (pyStrip (stripThinkCore s.data))

/-- Whether the regex `<think>.*?</think>` matches anywhere in the text. -/
def hasThinkMatch (l : List Char) : Bool :=
  match splitFirst openTag l with
  | none => false
  | some (_, post) => (splitFirst closeTag post).isSome

theorem stripThinkFuel_nil (f : Nat) : stripThinkFuel f [] = [] := by
  cases f <;> rfl

theorem stripThinkFuel_succ (f : Nat) (s : List Char) :
    stripThinkFuel (f + 1) s =
      match splitFirst openTag s with
      | none => s
      | some (pre, post) =>
        match splitFirst closeTag post with
        | none => s
        | some (_, rest) => pre ++ stripThinkFuel f rest := rfl

theorem stripThinkFuel_open_none (f : Nat) {s : List Char}
    (h : splitFirst openTag s = none) : stripThinkFuel (f + 1) s = s := by
  rw [stripThinkFuel_succ, h]

theorem stripThinkFuel_close_none (f : Nat) {s pre post : List Char}
    (h1 : splitFirst openTag s = some (pre, post))
    (h2 : splitFirst closeTag post = none) : stripThinkFuel (f + 1) s = s := by
  rw [stripThinkFuel_succ, h1]
  simp only [h2]

theorem hasThinkMatch_eq_true {s pre post mid rest : List Char}
    (h1 : splitFirst openTag s = some (pre, post))
    (h2 : splitFirst closeTag post = some (mid, rest)) :
    hasThinkMatch s = true := by
  unfold hasThinkMatch
  rw [h1]
  simp only [h2, Option.isSome_some]

theorem stripThinkFuel_no_match (f : Nat) (s : List Char)
    (h : hasThinkMatch s = false) : stripThinkFuel f s = s := by
  cases f with
  | zero => rfl
  | succ n =>
    cases h1 : splitFirst openTag s with
    | none => exact stripThinkFuel_open_none n h1
    | some pr =>
      obtain ⟨pre, post⟩ := pr
      cases h2 : splitFirst closeTag post with
      | none => exact stripThinkFuel_close_none n h1 h2
      | some pr2 =>
        obtain ⟨mid, rest⟩ := pr2
        rw [hasThinkMatch_eq_true h1 h2] at h
        simp at h

theorem stripThinkFuel_step (f : Nat) {s pre post mid rest : List Char}
    (h1 : splitFirst openTag s = some (pre, post))
    (h2 : splitFirst closeTag post = some (mid, rest)) :
    stripThinkFuel (f + 1) s = pre ++ stripThinkFuel f rest := by
  rw [stripThinkFuel_succ, h1]
  simp only [h2]

theorem stripThinkFuel_congr :
    ∀ (f1 f2 : Nat) (s : List Char), s.length ≤ f1 → s.length ≤ f2 →
      stripThinkFuel f1 s = stripThinkFuel f2 s := by
  intro f1
  induction f1 with
  | zero =>
    intro f2 s h1 _
    have hs : s = [] := List.eq_nil_of_length_eq_zero (Nat.le_zero.mp h1)
    subst hs
    rw [stripThinkFuel_nil, stripThinkFuel_nil]
  | succ n ih =>
    intro f2 s h1 h2
    cases f2 with
    | zero =>
      have hs : s = [] := List.eq_nil_of_length_eq_zero (Nat.le_zero.mp h2)
      subst hs
      rw [stripThinkFuel_nil, stripThinkFuel_nil]
    | succ m =>
      cases h3 : splitFirst openTag s with
      | none =>
        rw [stripThinkFuel_succ, stripThinkFuel_succ, h3]
      | some pr =>
        obtain ⟨pre, post⟩ := pr
        cases h4 : splitFirst closeTag post with
        | none =>
          rw [stripThinkFuel_succ, stripThinkFuel_succ, h3]
          simp only [h4]
        | some pr2 =>
          obtain ⟨mid, rest⟩ := pr2
          have l1 := splitFirst_post_length openTag (by decide) h3
          have l2 := splitFirst_post_length closeTag (by decide) h4
          rw [stripThinkFuel_step n h3 h4, stripThinkFuel_step m h3 h4]
          exact congrArg (pre ++ ·) (ih m rest (by omega) (by omega))

theorem stripThinkCore_eq_fuel (s : List Char) (f : Nat) (h : s.length ≤ f) :
    stripThinkCore s = stripThinkFuel f s :=
  stripThinkFuel_congr s.length f s le_rfl h

theorem stripThinkCore_no_match {s : List Char} (h : hasThinkMatch s = false) :
    stripThinkCore s = s :=
  stripThinkFuel_no_match _ _ h

theorem stripThinkCore_block (a b c : List Char) (ha : '<' ∉ a) (hb : '<' ∉ b) :
    stripThinkCore (a ++ (openTag ++ (b ++ (closeTag ++ c)))) =
      a ++ stripThinkCore c := by
  have h7 : openTag.length = 7 := rfl
  have h8 : closeTag.length = 8 := rfl
  have e1 : splitFirst openTag (a ++ (openTag ++ (b ++ (closeTag ++ c)))) =
      some (a, b ++ (closeTag ++ c)) := by
    rw [splitFirst_append openTag '<' rfl a _ ha,
        splitFirst_self (by decide)]
    simp
  have e2 : splitFirst closeTag (b ++ (closeTag ++ c)) = some (b, c) := by
    rw [splitFirst_append closeTag '<' rfl b _ hb,
        splitFirst_self (by decide)]
    simp
  have hlen : (a ++ (openTag ++ (b ++ (closeTag ++ c)))).length ≤
      (a.length + b.length + c.length + 14) + 1 := by
    simp only [List.length_append, h7, h8]
    omega
  rw [stripThinkCore_eq_fuel _ _ hlen, stripThinkFuel_step _ e1 e2,
      stripThinkCore_eq_fuel c (a.length + b.length + c.length + 14) (by omega)]

/-! ### `extract_assistant_response` (notebooks/tools.py, lines 135-153)

Python:
  `cleaned_text = re.sub(r"^🧠\s*Response:\s*", "", text.strip())`
  `match = re.search(r"Assistant:\s*(.*)", cleaned_text, re.DOTALL)`
  `return match.group(1).strip() if match else cleaned_text.strip()`
The anchored marker regex either consumes `🧠`, any whitespace, the literal
`Response:` and any following whitespace, or fails and leaves the text
untouched. -/

def respMarker : List Char := "Response:".data

def assistTag : List Char := "Assistant:".data

def stripMarker (l : List Char) : List Char :=
  match l with
  | [] => []
  | c :: rest =>
    if c = '🧠' then
      let r := rest.dropWhile pyWS
      if respMarker.isPrefixOf r then (r.drop respMarker.length).dropWhile pyWS
      else c :: rest
    else c :: rest

/-- The marker-stripped, pre-trimmed text the delimiter search runs on. -/
def extractCleaned (l : List Char) : List Char := stripMarker (pyStrip l)

def extract_assistant_response (s : String) : String :=
  match splitFirst assistTag (extractCleaned s.data) with
  | some (_, post) => String.mk (pyStrip (post.dropWhile pyWS))
  | none => String.mk (pyStrip (extractCleaned s.data))

theorem stripMarker_cons_ne {c : Char} {rest : List Char} (hc : ¬ c = '🧠') :
    stripMarker (c :: rest) = c :: rest := by
  simp only [stripMarker, if_neg hc]

theorem stripMarker_suffix (l : List Char) : stripMarker l <:+ l := by
  cases l with
  | nil => exact List.suffix_refl []
  | cons c rest =>
    by_cases hc : c = '🧠'
    · simp only [stripMarker, if_pos hc]
      by_cases hm : respMarker.isPrefixOf (rest.dropWhile pyWS)
      · rw [if_pos hm]
        have s1 : ((rest.dropWhile pyWS).drop respMarker.length).dropWhile pyWS <:+
            (rest.dropWhile pyWS).drop respMarker.length := List.dropWhile_suffix pyWS
        have s2 : (rest.dropWhile pyWS).drop respMarker.length <:+ rest.dropWhile pyWS :=
          List.drop_suffix _ _
        have s3 : rest.dropWhile pyWS <:+ rest := List.dropWhile_suffix pyWS
        exact ((s1.trans s2).trans s3).trans (List.suffix_cons c rest)
      · rw [if_neg hm]
    · rw [stripMarker_cons_ne hc]

theorem rtrimWS_prefix_self (l : List Char) : rtrimWS l <+: l := by
  have h : (rtrimWS l).reverse <:+ l.reverse := by
    unfold rtrimWS
    rw [List.reverse_reverse]
    exact List.dropWhile_suffix pyWS
  exact List.reverse_suffix.mp h

theorem pyStrip_infix_self (l : List Char) : pyStrip l <:+: l := by
  unfold pyStrip
  exact (rtrimWS_prefix_self (ltrimWS l)).isInfix.trans (List.dropWhile_suffix pyWS).isInfix

theorem extractCleaned_infix_self (l : List Char) : extractCleaned l <:+: l :=
  (stripMarker_suffix (pyStrip l)).isInfix.trans (pyStrip_infix_self l)

/-- `dropWhile` distributes over an append whose right part starts with a
character the predicate rejects. -/
theorem dropWhile_append_head {p : Char → Bool} {y : List Char} {c : Char}
    (hy : y.head? = some c) (hc : p c = false) (x : List Char) :
    (x ++ y).dropWhile p = x.dropWhile p ++ y := by
  rw [List.dropWhile_append]
  by_cases h : (x.dropWhile p).isEmpty
  · rw [if_pos h, List.isEmpty_iff.mp h, List.nil_append]
    cases y with
    | nil => simp at hy
    | cons d t =>
      have hd : d = c := by simpa using hy
      subst hd
      simp [List.dropWhile_cons, hc]
  · rw [if_neg h]

theorem mem_of_mem_ltrimWS {c : Char} {l : List Char} (h : c ∈ ltrimWS l) : c ∈ l :=
  (List.dropWhile_suffix pyWS).sublist.subset h

/-- Core correctness of the delimiter search: when the text decomposes as
`a ++ "Assistant:" ++ b` with the marker and the delimiter's first letter
absent from `a`, the cleaned text is `ltrim a ++ "Assistant:" ++ rtrim b`. -/
theorem extractCleaned_delim (a b : List Char) (hBr : '🧠' ∉ a) :
    extractCleaned (a ++ (assistTag ++ b)) = ltrimWS a ++ (assistTag ++ rtrimWS b) := by
  have hhead : (assistTag ++ b).head? = some 'A' := rfl
  have hstrip : pyStrip (a ++ (assistTag ++ b)) = ltrimWS a ++ (assistTag ++ rtrimWS b) := by
    unfold pyStrip
    rw [show ltrimWS (a ++ (assistTag ++ b)) = ltrimWS a ++ (assistTag ++ b) from
      dropWhile_append_head hhead rfl a]
    unfold rtrimWS
    rw [List.reverse_append, List.reverse_append, List.append_assoc]
    have hh2 : (assistTag.reverse ++ (ltrimWS a).reverse).head? = some ':' := rfl
    rw [dropWhile_append_head hh2 rfl b.reverse]
    simp [List.reverse_append, List.reverse_reverse, List.append_assoc]
  unfold extractCleaned
  rw [hstrip]
  cases hla : ltrimWS a with
  | nil =>
    rw [List.nil_append]
    exact stripMarker_cons_ne (by decide)
  | cons c t =>
    have hcmem : c ∈ a := mem_of_mem_ltrimWS (hla ▸ List.mem_cons_self c t)
    rw [List.cons_append]
    exact stripMarker_cons_ne fun hceq => hBr (hceq ▸ hcmem)

/-! ### Template formatting (`random.choice(...).format(text=...)`)

Python `str.format` with the single keyword `text` substitutes the value
for every occurrence of the placeholder `{text}` in the template. -/

def placeholderText : List Char := "{text}".data

def formatFuel : Nat → List Char → List Char → List Char
  | 0, tmpl, _ => tmpl
  | f + 1, tmpl, text =>
    match splitFirst placeholderText tmpl with
    | none => tmpl
    | some (pre, post) => pre ++ (text ++ formatFuel f post text)

def pyFormatText (tmpl text : String) : String :=
  String.mk (formatFuel tmpl.data.length tmpl.data text.data)

/-! ### Session store (agents/memory.py, `MemoryManager`)

The store is `{ user_id: { session_id: [ {role, content}, ... ] } }`
(nested Python dicts in insertion order, modelled as association lists),
together with a counter of durable writes: every `save_memory()` call the
manager makes under `persist=True` bumps `writes`.  `dictGet`/`dictSet`
reproduce `d[k]` lookup and assignment. -/

abbrev Turn := String × String

abbrev SessionMap := List (String × List Turn)

abbrev Store := List (String × SessionMap)

structure Mem where
  store : Store
  writes : Nat
deriving DecidableEq

def dictGet {β : Type} : List (String × β) → String → Option β
  | [], _ => none
  | (k', v') :: rest, k => if k' = k then some v' else dictGet rest k

def dictSet {β : Type} : List (String × β) → String → β → List (String × β)
  | [], k, v => [(k, v)]
  | (k', v') :: rest, k, v =>
    if k' = k then (k', v) :: rest else (k', v') :: dictSet rest k v

/-- `MemoryManager.add_chat_user` (memory.py, lines 41-45). -/
def add_chat_user (m : Mem) (u : String) : Mem :=
  match dictGet m.store u with
  | some _ => m
  | none => ⟨m.store ++ [(u, [])], m.writes + 1⟩

/-- `MemoryManager.add_chat_session` (memory.py, lines 47-52). -/
def add_chat_session (m : Mem) (u s : String) : Mem :=
  let m1 := add_chat_user m u
  match dictGet ((dictGet m1.store u).getD []) s with
  | some _ => m1
  | none =>
    ⟨dictSet m1.store u (((dictGet m1.store u).getD []) ++ [(s, [])]), m1.writes + 1⟩

/-- `MemoryManager.add_message` (memory.py, lines 56-60). -/
def add_message (m : Mem) (u s role content : String) : Mem :=
  let m1 := add_chat_session m u s
  let sessions := (dictGet m1.store u).getD []
  let turns := (dictGet sessions s).getD []
  ⟨dictSet m1.store u (dictSet sessions s (turns ++ [(role, content)])), m1.writes + 1⟩

/-- `MemoryManager.get_history` (memory.py, lines 62-63):
`self.memory_store.get(user_id, {}).get(session_id, [])`. -/
def get_history (store : Store) (u s : String) : List Turn :=
  (dictGet ((dictGet store u).getD []) s).getD []

/-- Python slice `history[-top_k:]`: for `top_k = 0` this is `history[0:]`,
the whole list; for positive `top_k` it is the last `min(top_k, len)`
elements. -/
def pySliceLast (k : Nat) (l : List Turn) : List Turn :=
  if k = 0 then l else l.drop (l.length - k)

def fmtTurn (t : Turn) : String := t.1 ++ ": " ++ t.2

/-- `MemoryManager.get_context` (memory.py, lines 65-71). -/
def get_context (store : Store) (u s : String) (top_k : Option Nat) : String :=
  let history := get_history store u s
  if history.isEmpty then ""
  else
    let window := match top_k with
      | some k => pySliceLast k history
      | none => history
    String.intercalate "\n" (window.map fmtTurn)

/-- Whether `(u, s)` already has a session list in the store. -/
def sessionExists (m : Mem) (u s : String) : Bool :=
  (dictGet ((dictGet m.store u).getD []) s).isSome

theorem dictGet_dictSet_self {β : Type} (l : List (String × β)) (k : String) (v : β) :
    dictGet (dictSet l k v) k = some v := by
  induction l with
  | nil => simp [dictGet, dictSet]
  | cons hd rest ih =>
    obtain ⟨k', v'⟩ := hd
    by_cases h : k' = k
    · simp [dictGet, dictSet, h]
    · simp [dictGet, dictSet, h, ih]

theorem dictGet_append_self {β : Type} {l : List (String × β)} {k : String}
    (h : dictGet l k = none) (v : β) : dictGet (l ++ [(k, v)]) k = some v := by
  induction l with
  | nil => simp [dictGet]
  | cons hd rest ih =>
    obtain ⟨k', v'⟩ := hd
    by_cases hk : k' = k
    · simp [dictGet, hk] at h
    · rw [List.cons_append]
      simp only [dictGet, if_neg hk] at h ⊢
      exact ih h

theorem dictGet_add_chat_user (m : Mem) (u : String) :
    dictGet (add_chat_user m u).store u = some ((dictGet m.store u).getD []) := by
  unfold add_chat_user
  cases hg : dictGet m.store u with
  | some v => simp [hg]
  | none => simp [dictGet_append_self hg]

theorem get_history_add_chat_user (m : Mem) (u s : String) :
    get_history (add_chat_user m u).store u s = get_history m.store u s := by
  unfold get_history
  rw [dictGet_add_chat_user]
  rfl

theorem add_chat_user_of_present {m : Mem} {u : String}
    (h : (dictGet m.store u).isSome) : add_chat_user m u = m := by
  unfold add_chat_user
  cases hg : dictGet m.store u with
  | some v => rfl
  | none => rw [hg] at h; simp at h

theorem sessionExists_add_chat_session (m : Mem) (u s : String) :
    sessionExists (add_chat_session m u s) u s = true := by
  unfold add_chat_session sessionExists
  cases hs : dictGet ((dictGet (add_chat_user m u).store u).getD []) s with
  | some t => simp [hs]
  | none =>
    simp only [hs, dictGet_dictSet_self, Option.getD_some]
    rw [dictGet_append_self hs]
    rfl

theorem add_chat_session_of_exists {m : Mem} {u s : String}
    (h : sessionExists m u s = true) : add_chat_session m u s = m := by
  unfold sessionExists at h
  have huser : (dictGet m.store u).isSome := by
    cases hg : dictGet m.store u with
    | some v => rfl
    | none => rw [hg] at h; simp [dictGet] at h
  have hu : add_chat_user m u = m := add_chat_user_of_present huser
  unfold add_chat_session
  simp only [hu]
  cases hs : dictGet ((dictGet m.store u).getD []) s with
  | some t => simp [hs]
  | none => rw [hs] at h; simp at h

theorem get_history_add_chat_session (m : Mem) (u s : String) :
    get_history (add_chat_session m u s).store u s = get_history m.store u s := by
  unfold add_chat_session
  cases hs : dictGet ((dictGet (add_chat_user m u).store u).getD []) s with
  | some t =>
    simp only [hs]
    exact get_history_add_chat_user m u s
  | none =>
    rw [← get_history_add_chat_user m u s]
    unfold get_history
    simp only [hs, dictGet_dictSet_self, Option.getD_some, Option.getD_none]
    rw [dictGet_append_self hs]
    rfl

theorem get_history_add_message (m : Mem) (u s role content : String) :
    get_history (add_message m u s role content).store u s =
      get_history m.store u s ++ [(role, content)] := by
  unfold add_message
  rw [← get_history_add_chat_session m u s]
  unfold get_history
  simp only [dictGet_dictSet_self, Option.getD_some]

/-! ### Python values and `orchestrator_route` (langgraph_agents.py, lines 91-116)

`json.loads` (Python standard library) is treated as an opaque collaborator
producing either a parse error or a Python value.  Subscripting a value
with a string key (`json_data["Task_name"]`) raises `KeyError` on a dict
missing the key and `TypeError` on any non-dict; both are modelled by
`PyVal.getItem` returning `Option.none`, which the function's bare
`except:` turns into the label `"end"`. -/

inductive PyVal where
  | str : String → PyVal
  | int : Int → PyVal
  | bool : Bool → PyVal
  | none : PyVal
  | list : List PyVal → PyVal
  | dict : List (String × PyVal) → PyVal

/-- Python truthiness of a JSON value (`if json_data:`). -/
def PyVal.truthy : PyVal → Bool
  | .str s => !(s.isEmpty)
  | .int n => n != 0
  | .bool b => b
  | .none => false
  | .list l => !(l.isEmpty)
  | .dict d => !(d.isEmpty)

/-- Python `value[key]` for a string key, with `KeyError`/`TypeError`
modelled as `Option.none`. -/
def PyVal.getItem : PyVal → String → Option PyVal
  | .dict d, k => dictGet d k
  | _, _ => Option.none

/-- Python `value == "literal"` (False whenever `value` is not a string). -/
def pyEqStr : PyVal → String → Bool
  | .str s, t => s == t
  | _, _ => false

def orchestrator_route (parsed : Except Unit PyVal) : String :=
  match parsed with
  | .error _ => "end"
  | .ok j =>
    if j.truthy then
      match j.getItem "Task_name" with
      | Option.none => "end"
      | some task_name =>
        match j.getItem "agent_name" with
        | Option.none => "end"
        | some agent_name =>
          if pyEqStr task_name "video_analysis" || pyEqStr agent_name "video_analyst" then
            "video_analyst"
          else if pyEqStr task_name "transcript_analysis" ||
              pyEqStr agent_name "transcript_analyst" then
            "transcript_analyst"
          else if pyEqStr task_name "report_generation" ||
              pyEqStr agent_name "report_analyst" then
            "report_analyst"
          else "end"
    else "end"

/-! ### Task handlers (langgraph_agents.py)

Each collaborator call is a parameter of type `Except Unit _`: `.error`
models the call raising, `.ok` its return value.  `random.choice` over a
ten-element list is modelled by an explicit index `Fin 10`. -/

def apology : String := "🤒 Sorry, I cannot fullfill your request, a thousand apologies. 👏👏👏"

def ai_responses : List String := [
  "✅ Got it! Here's what I came up with: 👇\n{text}",
  "💡 Sure thing! Take a look at this: 👇\n{text}",
  "👍 No worries — here’s my response: 👇\n{text}",
  "✨ Here’s what I’ve prepared for you: 👇\n{text}",
  "🤖 Absolutely! Here’s the result: 👇\n{text}",
  "👌 Sure! This is what I found: 👇\n{text}",
  "🚀 Done! Here’s my output: 👇\n{text}",
  "🧠 Here’s my take on that: 👇\n{text}",
  "📘 Here’s the information you asked for: 👇\n{text}",
  "✅ All set! Check out my answer below: 👇\n{text}"]

def success_responses : List String := [
  "✨ Sure! Your request has been completed successfully ✅",
  "✅ Done! Everything went smoothly ✨",
  "🎯 Request processed successfully — all set!",
  "👍 Got it! Your request was handled perfectly ✅",
  "🚀 Success! The task is now complete ✨",
  "🌟 All done — your request went through successfully ✅",
  "💪 Mission accomplished! Everything’s done as requested ✨",
  "🧩 Your request was processed with no issues ✅",
  "🎉 Great! Everything has been completed successfully ✨",
  "✅ All set! Your request finished without any errors 🌟"]

/-- `transcript_agent` (langgraph_agents.py, lines 120-154): the
`transcribe` call happens inside the handler's `try`, so a raise becomes
the apology text. -/
def transcript_agent (transcribeOut : Except Unit String) (choice : Fin 10) : String :=
  match transcribeOut with
  | .ok text => pyFormatText (ai_responses.getD choice.val "") text
  | .error _ => apology

/-- `video_agent` (langgraph_agents.py, lines 158-200). -/
def video_agent (vlmOut : Except Unit String) : String :=
  match vlmOut with
  | .ok content => extract_assistant_response content
  | .error _ => apology

/-- `report_agent` (langgraph_agents.py, lines 203-267).  The second-stage
`llm_model.invoke` sits OUTSIDE the `try` block (line 248 versus the `try`
at line 253), so a raise from it propagates out of the handler; only
`json.loads`, the `["args"]` lookup, and the `generate_report` call are
protected.  The result pair is `(report_path, final_response)`. -/
def report_agent (invokeOut : Except Unit String)
    (loads : String → Except Unit PyVal) (render : PyVal → Except Unit String)
    (choice : Fin 10) : Except Unit (String × String) :=
  match invokeOut with
  | .error e => .error e
  | .ok content =>
    let ai_msg := clean_think_blocks content
    match loads ai_msg with
    | .error _ => .ok ("NA", apology)
    | .ok function_call =>
      match function_call.getItem "args" with
      | Option.none => .ok ("NA", apology)
      | some args =>
        match render args with
        | .error _ => .ok ("NA", apology)
        | .ok path => .ok (path, success_responses.getD choice.val "")

/-! ### The compiled graph (langgraph_agents.py, `build_graph`, lines 294-326)

`START → load_memory → orchestrator → {task handler | update_memory} →
update_memory → END`.  `run_graph` is one synchronous execution; an
uncaught Python exception anywhere aborts the run (`Except.error`),
skipping `update_memory`. -/

structure RequestIn where
  user_id : String
  session_id : String
  user_query : String
  video_path : String

structure Collab where
  classifierOut : Except Unit String
  transcribeOut : Except Unit String
  vlmOut : Except Unit String
  reportInvokeOut : Except Unit String
  loads : String → Except Unit PyVal
  render : PyVal → Except Unit String
  choiceT : Fin 10
  choiceR : Fin 10

structure RunResult where
  final_response : String
  report_path : String
  mem : Mem
deriving DecidableEq

/-- The conditional edge out of `orchestrator` followed by the chosen task
node: yields `(final_response, report_path)` of the state reaching
`update_memory`, or the uncaught exception aborting the run.  On the
`"end"` edge the orchestrator's own message is the final response. -/
def dispatch (b : Collab) (orchestrator_msg : String) : Except Unit (String × String) :=
  if orchestrator_route (b.loads orchestrator_msg) = "video_analyst" then
    .ok (video_agent b.vlmOut, "")
  else if orchestrator_route (b.loads orchestrator_msg) = "transcript_analyst" then
    .ok (transcript_agent b.transcribeOut b.choiceT, "")
  else if orchestrator_route (b.loads orchestrator_msg) = "report_analyst" then
    match report_agent b.reportInvokeOut b.loads b.render b.choiceR with
    | .error e => .error e
    | .ok pr => .ok (pr.2, pr.1)
  else .ok (orchestrator_msg, "")

/-- `update_memory` (langgraph_agents.py, lines 270-291): append the human
query and the AI response as two new turns, then return the final state. -/
def finalize (inp : RequestIn) (m1 : Mem) (pr : String × String) : RunResult :=
  ⟨pr.1, pr.2,
    add_message (add_message m1 inp.user_id inp.session_id "Human" inp.user_query)
      inp.user_id inp.session_id "AI" pr.1⟩

def run_graph (inp : RequestIn) (b : Collab) (m : Mem) : Except Unit RunResult :=
  match b.classifierOut with
  | .error e => .error e
  | .ok raw =>
    Except.map (finalize inp (add_chat_session m inp.user_id inp.session_id))
      (dispatch b (clean_think_blocks raw))

theorem except_map_ok {α β : Type} {f : α → β} {x : Except Unit α} {r : β}
    (h : Except.map f x = .ok r) : ∃ a, x = .ok a ∧ r = f a := by
  cases x with
  | error e => simp [Except.map] at h
  | ok a =>
    refine ⟨a, rfl, ?_⟩
    simpa [Except.map] using h.symm

/-! ### Routing characterization lemmas -/

theorem orchestrator_route_falsy {j : PyVal} (hj : j.truthy = false) :
    orchestrator_route (.ok j) = "end" := by
  unfold orchestrator_route
  simp [hj]

theorem orchestrator_route_no_task {j : PyVal} (hj : j.truthy = true)
    (htn : j.getItem "Task_name" = Option.none) :
    orchestrator_route (.ok j) = "end" := by
  unfold orchestrator_route
  simp [hj, htn]

theorem orchestrator_route_no_agent {j task_name : PyVal} (hj : j.truthy = true)
    (htn : j.getItem "Task_name" = some task_name)
    (han : j.getItem "agent_name" = Option.none) :
    orchestrator_route (.ok j) = "end" := by
  unfold orchestrator_route
  simp [hj, htn, han]

theorem orchestrator_route_ok_both {j task_name agent_name : PyVal}
    (hj : j.truthy = true)
    (htn : j.getItem "Task_name" = some task_name)
    (han : j.getItem "agent_name" = some agent_name) :
    orchestrator_route (.ok j) =
      if pyEqStr task_name "video_analysis" || pyEqStr agent_name "video_analyst" then
        "video_analyst"
      else if pyEqStr task_name "transcript_analysis" ||
          pyEqStr agent_name "transcript_analyst" then
        "transcript_analyst"
      else if pyEqStr task_name "report_generation" ||
          pyEqStr agent_name "report_analyst" then
        "report_analyst"
      else "end" := by
  unfold orchestrator_route
  simp only [hj, htn, han, if_true]

/-! ## Claim theorems -/

/-- C1, counterexample: a parsed JSON object carrying a recognized task
name in `Task_name` but lacking the `agent_name` key routes to `"end"`,
not to `"video_analyst"` as the claim requires — the handler lookup
`json_data["agent_name"]` raises `KeyError`, which the bare `except:`
turns into `"end"`. -/
theorem orchestrator_route_missing_field_counterexample :
    orchestrator_route (.ok (.dict [("Task_name", .str "video_analysis")])) = "end" ∧
    ("end" : String) ≠ "video_analyst" :=
  ⟨rfl, by decide⟩

/-- C1 (amended): routing consults the parsed classifier output only when
it is a truthy JSON value holding BOTH keys `Task_name` and `agent_name`;
then a recognized value in either field selects the corresponding handler
label (video, then transcript, then report, in that order), and anything
else — a parse failure, a falsy value, a missing key, or two unrecognized
values — routes to `"end"`.  In particular an object with both keys
present where only one holds a recognized value still routes to that
handler. -/
theorem orchestrator_route_amended_spec :
    (∀ e : Unit, orchestrator_route (.error e) = "end") ∧
    (∀ j : PyVal, j.truthy = false → orchestrator_route (.ok j) = "end") ∧
    (∀ j : PyVal, j.truthy = true → j.getItem "Task_name" = Option.none →
      orchestrator_route (.ok j) = "end") ∧
    (∀ j tn : PyVal, j.truthy = true → j.getItem "Task_name" = some tn →
      j.getItem "agent_name" = Option.none → orchestrator_route (.ok j) = "end") ∧
    (∀ j tn an : PyVal, j.truthy = true → j.getItem "Task_name" = some tn →
      j.getItem "agent_name" = some an →
      ((pyEqStr tn "video_analysis" || pyEqStr an "video_analyst") = true →
        orchestrator_route (.ok j) = "video_analyst") ∧
      ((pyEqStr tn "video_analysis" || pyEqStr an "video_analyst") = false →
        (pyEqStr tn "transcript_analysis" || pyEqStr an "transcript_analyst") = true →
        orchestrator_route (.ok j) = "transcript_analyst") ∧
      ((pyEqStr tn "video_analysis" || pyEqStr an "video_analyst") = false →
        (pyEqStr tn "transcript_analysis" || pyEqStr an "transcript_analyst") = false →
        (pyEqStr tn "report_generation" || pyEqStr an "report_analyst") = true →
        orchestrator_route (.ok j) = "report_analyst") ∧
      ((pyEqStr tn "video_analysis" || pyEqStr an "video_analyst") = false →
        (pyEqStr tn "transcript_analysis" || pyEqStr an "transcript_analyst") = false →
        (pyEqStr tn "report_generation" || pyEqStr an "report_analyst") = false →
        orchestrator_route (.ok j) = "end")) := by
  refine ⟨fun e => rfl, fun j hj => orchestrator_route_falsy hj,
    fun j hj htn => orchestrator_route_no_task hj htn,
    fun j tn hj htn han => orchestrator_route_no_agent hj htn han,
    fun j tn an hj htn han => ?_⟩
  rw [orchestrator_route_ok_both hj htn han]
  refine ⟨fun h1 => ?_, fun h1 h2 => ?_, fun h1 h2 h3 => ?_, fun h1 h2 h3 => ?_⟩
  · rw [if_pos h1]
  · rw [if_neg (by simp [h1]), if_pos h2]
  · rw [if_neg (by simp [h1]), if_neg (by simp [h2]), if_pos h3]
  · rw [if_neg (by simp [h1]), if_neg (by simp [h2]), if_neg (by simp [h3])]

/-- C1 witness: a truthy object with both keys present, an unrecognized
task name and a recognized agent name routes to the transcript handler. -/
theorem orchestrator_route_amended_witness :
    orchestrator_route (.ok (.dict [("Task_name", .str "nonsense"),
      ("agent_name", .str "transcript_analyst")])) = "transcript_analyst" :=
  (orchestrator_route_amended_spec.2.2.2.2
    (.dict [("Task_name", .str "nonsense"), ("agent_name", .str "transcript_analyst")])
    (.str "nonsense") (.str "transcript_analyst") rfl rfl rfl).2.1 rfl rfl

/-- C10 (confirmed): on a conflicting decision the branches are tested in
the fixed order video, transcript, report, and the first branch matched by
either field wins; `{"Task_name": "transcript_analysis", "agent_name":
"video_analyst"}` therefore routes to the vision handler. -/
theorem orchestrator_route_priority :
    orchestrator_route (.ok (.dict [("Task_name", .str "transcript_analysis"),
      ("agent_name", .str "video_analyst")])) = "video_analyst" ∧
    (∀ j tn an : PyVal, j.truthy = true → j.getItem "Task_name" = some tn →
      j.getItem "agent_name" = some an →
      ((pyEqStr tn "video_analysis" || pyEqStr an "video_analyst") = true →
        orchestrator_route (.ok j) = "video_analyst") ∧
      ((pyEqStr tn "video_analysis" || pyEqStr an "video_analyst") = false →
        (pyEqStr tn "transcript_analysis" || pyEqStr an "transcript_analyst") = true →
        orchestrator_route (.ok j) = "transcript_analyst") ∧
      ((pyEqStr tn "video_analysis" || pyEqStr an "video_analyst") = false →
        (pyEqStr tn "transcript_analysis" || pyEqStr an "transcript_analyst") = false →
        (pyEqStr tn "report_generation" || pyEqStr an "report_analyst") = true →
        orchestrator_route (.ok j) = "report_analyst")) := by
  refine ⟨rfl, fun j tn an hj htn han => ?_⟩
  rw [orchestrator_route_ok_both hj htn han]
  refine ⟨fun h1 => ?_, fun h1 h2 => ?_, fun h1 h2 h3 => ?_⟩
  · rw [if_pos h1]
  · rw [if_neg (by simp [h1]), if_pos h2]
  · rw [if_neg (by simp [h1]), if_neg (by simp [h2]), if_pos h3]

/-- C10 witness: both fields recognized but for different handlers — the
video branch, tested first, wins via the agent field. -/
theorem orchestrator_route_priority_witness :
    orchestrator_route (.ok (.dict [("Task_name", .str "report_generation"),
      ("agent_name", .str "video_analyst")])) = "video_analyst" :=
  (orchestrator_route_priority.2
    (.dict [("Task_name", .str "report_generation"), ("agent_name", .str "video_analyst")])
    (.str "report_generation") (.str "video_analyst") rfl rfl rfl).1 rfl

/-- C2, code-bug evidence: when the classifier decision routes to the
report handler and the handler's second-stage text-generation call raises,
the whole graph run aborts with the uncaught exception — no apology
response is produced and `update_memory` never runs.  The second conjunct
isolates the cause: `report_agent` propagates the raise because its
`llm_model.invoke` call sits outside the `try` block. -/
theorem report_invoke_failure_propagates :
    run_graph ⟨"u", "s", "q", "v"⟩
      ⟨.ok "x", .ok "", .ok "", .error (),
        fun _ => .ok (.dict [("Task_name", .str "report_generation"),
          ("agent_name", .str "report_analyst")]),
        fun _ => .ok "p", 0, 0⟩ ⟨[], 0⟩ = .error () ∧
    report_agent (.error ()) (fun _ => .error ()) (fun _ => .error ()) 0 = .error () :=
  ⟨rfl, rfl⟩

/-- C4 (confirmed): every graph run that reaches `update_memory` (i.e.
returns a result rather than an uncaught exception) appends exactly two
turns to the `(user_id, session_id)` session, in order: a `Human` turn
holding the user query, then an `AI` turn holding the final response.
This covers all routes, including the rejection route where the
classifier's own message becomes the final response. -/
theorem update_memory_appends_two_turns (inp : RequestIn) (b : Collab) (m : Mem)
    (r : RunResult) (h : run_graph inp b m = .ok r) :
    get_history r.mem.store inp.user_id inp.session_id =
      get_history m.store inp.user_id inp.session_id ++
        [("Human", inp.user_query), ("AI", r.final_response)] := by
  unfold run_graph at h
  cases hc : b.classifierOut with
  | error e => rw [hc] at h; simp at h
  | ok raw =>
    rw [hc] at h
    obtain ⟨pr, hx, hr⟩ := except_map_ok h
    subst hr
    simp only [finalize]
    rw [get_history_add_message, get_history_add_message, get_history_add_chat_session]
    simp [List.append_assoc]

/-- C4 witness: a concrete rejection-path run on an empty store appends
the human query and the classifier's literal message. -/
theorem update_memory_appends_two_turns_witness :
    get_history [("u", [("s", [("Human", "q"), ("AI", "reject")])])] "u" "s" =
      get_history ([] : Store) "u" "s" ++ [("Human", "q"), ("AI", "reject")] :=
  update_memory_appends_two_turns ⟨"u", "s", "q", "v"⟩
    ⟨.ok "reject", .ok "", .ok "", .ok "", fun _ => .error (), fun _ => .error (), 0, 0⟩
    ⟨[], 0⟩ ⟨"reject", "", ⟨[("u", [("s", [("Human", "q"), ("AI", "reject")])])], 4⟩⟩ rfl

/-- C5 (confirmed): whenever the report handler's second-stage output does
not parse, or the parsed value has no `"args"` entry, or the rendering
call raises, the handler returns the sentinel artifact path `"NA"` paired
with the fixed apology as the final response. -/
theorem report_agent_failure_fallback (content : String)
    (loads : String → Except Unit PyVal) (render : PyVal → Except Unit String)
    (choice : Fin 10)
    (hfail : loads (clean_think_blocks content) = .error () ∨
      (∃ fc, loads (clean_think_blocks content) = .ok fc ∧
        fc.getItem "args" = Option.none) ∨
      (∃ fc args, loads (clean_think_blocks content) = .ok fc ∧
        fc.getItem "args" = some args ∧ render args = .error ())) :
    report_agent (.ok content) loads render choice = .ok ("NA", apology) := by
  unfold report_agent
  rcases hfail with h | ⟨fc, h1, h2⟩ | ⟨fc, args, h1, h2, h3⟩
  · simp only [h]
  · simp only [h1, h2]
  · simp only [h1, h2, h3]

/-- C5 witness: a concrete unparseable second-stage output yields the
apology and the `"NA"` sentinel. -/
theorem report_agent_failure_fallback_witness :
    report_agent (.ok "junk") (fun _ => .error ()) (fun _ => .ok "p") 0 =
      .ok ("NA", apology) :=
  report_agent_failure_fallback "junk" (fun _ => .error ()) (fun _ => .ok "p") 0
    (Or.inl rfl)

/-- C6 (confirmed): `add_chat_session` is idempotent — a second call with
the same ids returns the store (and durable-write counter) unchanged; it
never clears or modifies the turns already held under the session; and
when the session already exists the call is a complete no-op, performing
no durable write. -/
theorem add_chat_session_idempotent :
    (∀ (m : Mem) (u s : String),
      add_chat_session (add_chat_session m u s) u s = add_chat_session m u s) ∧
    (∀ (m : Mem) (u s : String),
      get_history (add_chat_session m u s).store u s = get_history m.store u s) ∧
    (∀ (m : Mem) (u s : String), sessionExists m u s = true →
      add_chat_session m u s = m) :=
  ⟨fun m u s => add_chat_session_of_exists (sessionExists_add_chat_session m u s),
   get_history_add_chat_session,
   fun _ _ _ h => add_chat_session_of_exists h⟩

/-- C6 witness: creating an existing session is a no-op on a concrete
store, write counter included. -/
theorem add_chat_session_idempotent_witness :
    add_chat_session ⟨[("u", [("s", [("Human", "x")])])], 5⟩ "u" "s" =
      ⟨[("u", [("s", [("Human", "x")])])], 5⟩ :=
  add_chat_session_idempotent.2.2 ⟨[("u", [("s", [("Human", "x")])])], 5⟩ "u" "s" rfl

/-- C3, counterexample: with one stored turn and window value `0`, the
claim demands `min(1, 0) = 0` turns, i.e. the empty string, but the code's
Python slice `history[-0:]` is the whole history, so the turn is
returned. -/
theorem get_context_window_zero_counterexample :
    get_context [("u", [("s", [("Human", "hi")])])] "u" "s" (some 0) = "Human: hi" ∧
    get_context [("u", [("s", [("Human", "hi")])])] "u" "s" (some 0) ≠ "" :=
  ⟨rfl, by decide⟩

/-- C3 (amended): for every positive window value `get_context` returns
exactly the `min(N, window)` most recent turns — a suffix of the history —
serialized as `"role: content"` lines joined by newlines, and the empty
string when the session is absent or empty; the function is total, so it
never raises.  (For window value `0` the Python slice `[-0:]` returns all
turns instead.) -/
theorem get_context_amended_spec (store : Store) (u s : String) (k : Nat)
    (hk : 1 ≤ k) :
    get_context store u s (some k) =
      String.intercalate "\n"
        (((get_history store u s).drop ((get_history store u s).length - k)).map
          fmtTurn) ∧
    ((get_history store u s).drop ((get_history store u s).length - k)).length =
      min (get_history store u s).length k ∧
    ((get_history store u s).drop ((get_history store u s).length - k)) <:+
      get_history store u s ∧
    (get_history store u s = [] → get_context store u s (some k) = "") := by
  have hk0 : k ≠ 0 := by omega
  refine ⟨?_, ?_, List.drop_suffix _ _, ?_⟩
  · unfold get_context
    by_cases hh : (get_history store u s).isEmpty
    · have h0 : get_history store u s = [] := List.isEmpty_iff.mp hh
      simp [h0]
      rfl
    · simp [hh, pySliceLast, hk0]
  · rw [List.length_drop]
    omega
  · intro h0
    unfold get_context
    simp [h0]

/-- C3 witness: with three stored turns and window `2`, the two most
recent turns come back in order. -/
theorem get_context_amended_witness :
    get_context [("u", [("s", [("Human", "a"), ("AI", "b"), ("Human", "c")])])]
      "u" "s" (some 2) =
      String.intercalate "\n"
        (((get_history [("u", [("s", [("Human", "a"), ("AI", "b"), ("Human", "c")])])]
            "u" "s").drop
          ((get_history [("u", [("s", [("Human", "a"), ("AI", "b"), ("Human", "c")])])]
            "u" "s").length - 2)).map fmtTurn) :=
  (get_context_amended_spec
    [("u", [("s", [("Human", "a"), ("AI", "b"), ("Human", "c")])])] "u" "s" 2
    (by decide)).1

/-- C7 (confirmed): `clean_think_blocks` maps `"a<think>b</think>c"` to
`"ac"`; when the regex has no match — no opening tag, or no closing tag
after the first opening tag — the text is returned unchanged except for
whitespace trimming; and around any matched block the text before the
opening tag is preserved verbatim while removal continues after the
closing tag (stated for texts whose segments contain no `<`, which pins
the tag occurrences). -/
theorem clean_think_blocks_spec :
    clean_think_blocks "a<think>b</think>c" = "ac" ∧
    (∀ s : String, hasThinkMatch s.data = false →
      clean_think_blocks s = String.mk (pyStrip s.data)) ∧
    (∀ a b c : String, '<' ∉ a.data → '<' ∉ b.data →
      clean_think_blocks (a ++ ("<think>" ++ (b ++ ("</think>" ++ c)))) =
        String.mk (pyStrip (a.data ++ stripThinkCore c.data))) := by
  refine ⟨by decide, fun s h => ?_, fun a b c ha hb => ?_⟩
  · unfold clean_think_blocks
    rw [stripThinkCore_no_match h]
  · unfold clean_think_blocks
    have hdata : (a ++ ("<think>" ++ (b ++ ("</think>" ++ c)))).data =
        a.data ++ (openTag ++ (b.data ++ (closeTag ++ c.data))) := by
      simp [String.data_append, openTag, closeTag]
    rw [hdata, stripThinkCore_block a.data b.data c.data ha hb]

/-- C7 witness: tag-free text is only trimmed; a single bracketed block is
cut out with the surrounding text preserved. -/
theorem clean_think_blocks_spec_witness :
    clean_think_blocks " hello " = String.mk (pyStrip " hello ".data) ∧
    clean_think_blocks ("x" ++ ("<think>" ++ ("y" ++ ("</think>" ++ "z")))) =
      String.mk (pyStrip ("x".data ++ stripThinkCore "z".data)) :=
  ⟨clean_think_blocks_spec.2.1 " hello " (by decide),
   clean_think_blocks_spec.2.2 "x" "y" "z" (by decide) (by decide)⟩

/-- C8 (confirmed): `extract_assistant_response` strips the leading
`🧠 Response:` marker, then returns everything after the first literal
`Assistant:` trimmed — in particular the example from the spec — and when
the delimiter does not occur it returns the marker-stripped text trimmed.
The general delimiter clause is stated for prefixes free of `A` (pinning
the first occurrence) and of the marker emoji. -/
theorem extract_assistant_response_spec :
    extract_assistant_response "🧠 Response: User: ... Assistant: Yes." = "Yes." ∧
    (∀ s : String, ¬ (assistTag <:+: s.data) →
      extract_assistant_response s = String.mk (pyStrip (extractCleaned s.data))) ∧
    (∀ a b : String, 'A' ∉ a.data → '🧠' ∉ a.data →
      extract_assistant_response (a ++ ("Assistant:" ++ b)) =
        String.mk (pyStrip b.data)) := by
  refine ⟨by decide, fun s hs => ?_, fun a b hA hm => ?_⟩
  · have hni : ¬ (assistTag <:+: extractCleaned s.data) :=
      fun h => hs (h.trans (extractCleaned_infix_self s.data))
    unfold extract_assistant_response
    rw [splitFirst_eq_none_of_absent (by decide) hni]
  · unfold extract_assistant_response
    have hdata : (a ++ ("Assistant:" ++ b)).data = a.data ++ (assistTag ++ b.data) := by
      simp [String.data_append, assistTag]
    have hA' : 'A' ∉ ltrimWS a.data := fun h => hA (mem_of_mem_ltrimWS h)
    rw [hdata, extractCleaned_delim a.data b.data hm,
        splitFirst_append assistTag 'A' rfl _ _ hA',
        splitFirst_self (by decide)]
    show String.mk (pyStrip (ltrimWS (rtrimWS b.data))) = String.mk (pyStrip b.data)
    rw [pyStrip_ltrim_rtrim]

/-- C8 witness: delimiter-free text comes back marker-stripped and
trimmed; text after a first `Assistant:` comes back trimmed. -/
theorem extract_assistant_response_spec_witness :
    extract_assistant_response "plain text" =
      String.mk (pyStrip (extractCleaned "plain text".data)) ∧
    extract_assistant_response ("Q: " ++ ("Assistant:" ++ " Yes. ")) =
      String.mk (pyStrip " Yes. ".data) :=
  ⟨extract_assistant_response_spec.2.1 "plain text" (by decide),
   extract_assistant_response_spec.2.2 "Q: " " Yes. " (by decide) (by decide)⟩

/-- C9 (confirmed): the transcript handler's acknowledgment pool has
exactly ten templates; on a successful transcription the response is one
of the ten templates with the transcript substituted for the placeholder,
and on a raising collaborator the response is the fixed apology — the
model is a total function, so the exception never escapes the handler. -/
theorem transcript_agent_spec :
    ai_responses.length = 10 ∧
    (∀ (t : String) (i : Fin 10), ∃ tmpl, tmpl ∈ ai_responses ∧
      transcript_agent (.ok t) i = pyFormatText tmpl t) ∧
    (∀ (e : Unit) (i : Fin 10), transcript_agent (.error e) i = apology) := by
  refine ⟨rfl, fun t i => ⟨ai_responses.getD i.val "", ?_, rfl⟩, fun e i => rfl⟩
  have hi : i.val < ai_responses.length := by
    rw [show ai_responses.length = 10 from rfl]
    exact i.isLt
  rw [List.getD_eq_getElem ai_responses "" hi]
  exact List.getElem_mem hi

end ShortVideo
